import Mathlib

/-!
Verification of the llama_deploy credential store, step pipeline, bootstrap
token resolution and port allocator.

The Python sources are shallowly embedded:

* `llama_deploy/tokens.py` — `TokenRecord`, `TokenStore` and its operations.
  The filesystem under the secrets directory is modelled by `SecretsDir`
  (the `tokens.json` record list, the `api_keys` keyfile content and the
  `token_hashes.json` hash list, each `Option` so that a missing file is
  distinguishable from an empty one).  `hashlib.sha256(...).hexdigest()` is
  an external stdlib collaborator and is passed in as an abstract function
  `sha : String → String`; likewise the `secrets` module randomness
  (`token_hex`, `token_urlsafe`) and the current timestamp are explicit
  inputs.  Python exceptions (`KeyError`, `ValueError`) become `Except PyError`.

* `llama_deploy/orchestrator.py` — `Step`, `run_steps`, `_ensure_first_token`
  and the `finally` block of `run_deploy`.  Mutable `step.result` fields read
  by later closures become an explicit list of optional results threaded
  through the runner; a step's action and skip predicate are functions of the
  results produced so far.

* `llama_deploy/system.py` is not among the provided sources; its port
  allocator is modelled from the spec (see `pick_free_bind_port`).
-/

/-- Python exceptions raised by `TokenStore` operations.  `keyError` models
`KeyError` (NotFound), `valueError` models `ValueError` (InvalidInput,
AlreadyRevoked, InvalidState). -/
inductive PyError where
  | keyError (msg : String)
  | valueError (msg : String)
deriving DecidableEq, Repr

/-- `llama_deploy.config.AuthMode` (a two-valued enum: `plaintext` | `hashed`). -/
inductive AuthMode where
  | plaintext
  | hashed
deriving DecidableEq, Repr

/-- `tokens.py` — dataclass `TokenRecord`. -/
structure TokenRecord where
  id : String
  name : String
  created_at : String
  revoked : Bool := false
  revoked_at : Option String := none
  value : Option String := none
  hash : Option String := none
deriving DecidableEq, Repr

/-- The on-disk state of the secrets directory.  `none` means the file (or
directory) does not exist.  `tokensJson` holds the parsed record list of
`tokens.json`; `apiKeys` the raw text of `api_keys`; `tokenHashes` the hash
array of `token_hashes.json`. -/
structure SecretsDir where
  dirExists : Bool := false
  tokensJson : Option (List TokenRecord) := none
  apiKeys : Option String := none
  tokenHashes : Option (List String) := none
deriving DecidableEq, Repr

/-- Python `not s.strip()`: true iff the string is empty or consists only of
whitespace characters. -/
def isBlank (s : String) : Bool :=
  s.data.all Char.isWhitespace

/-- Python truthiness of an `Optional[str]`: `None` and `""` are falsy. -/
def truthyS : Option String → Bool
  | none => false
  | some s => !(s == "")

namespace TokenStore

/-- `TokenStore._load`: return `[]` when `tokens.json` does not exist,
otherwise the parsed record list. -/
def _load (fs : SecretsDir) : List TokenRecord :=
  fs.tokensJson.getD []

/-- `TokenStore._save`: create the secrets directory (`mkdir(parents=True,
exist_ok=True)`) and rewrite `tokens.json` with the full record list. -/
def _save (tokens : List TokenRecord) (fs : SecretsDir) : SecretsDir :=
  { fs with dirExists := true, tokensJson := some tokens }

/-- The list comprehension in `_sync_keyfile`:
`[t.value for t in tokens if not t.revoked and t.value]`. -/
def activeValues (tokens : List TokenRecord) : List String :=
  tokens.filterMap fun t =>
    if t.revoked then none
    else match t.value with
      | none => none
      | some s => if s == "" then none else some s

/-- The list comprehension in `_sync_hashfile`:
`[t.hash for t in tokens if not t.revoked and t.hash]`. -/
def activeHashes (tokens : List TokenRecord) : List String :=
  tokens.filterMap fun t =>
    if t.revoked then none
    else match t.hash with
      | none => none
      | some s => if s == "" then none else some s

/-- `TokenStore._sync_keyfile`: rewrite `api_keys` with one active plaintext
value per line (`"\n".join(active) + "\n"`). -/
def _sync_keyfile (tokens : List TokenRecord) (fs : SecretsDir) : SecretsDir :=
  { fs with apiKeys := some (String.intercalate "\n" (activeValues tokens) ++ "\n") }

/-- `TokenStore._sync_hashfile`: rewrite `token_hashes.json` with the active
hashes. -/
def _sync_hashfile (tokens : List TokenRecord) (fs : SecretsDir) : SecretsDir :=
  { fs with tokenHashes := some (activeHashes tokens) }

/-- `TokenStore._sync`: dispatch on the auth mode. -/
def _sync (mode : AuthMode) (tokens : List TokenRecord) (fs : SecretsDir) : SecretsDir :=
  if mode == AuthMode.hashed then _sync_hashfile tokens fs else _sync_keyfile tokens fs

/-- `TokenStore.list_tokens`. -/
def list_tokens (fs : SecretsDir) : List TokenRecord :=
  _load fs

/-- `TokenStore.active_tokens`: `[t for t in self._load() if not t.revoked]`. -/
def active_tokens (fs : SecretsDir) : List TokenRecord :=
  (_load fs).filter fun t => !t.revoked

/-- The loop body of `TokenStore.show_token` over the loaded record list. -/
def showAux (mode : AuthMode) (token_id : String) :
    List TokenRecord → Except PyError TokenRecord
  | [] => .error (.keyError ("Token not found: " ++ token_id))
  | t :: ts =>
    if t.id == token_id then
      if mode == AuthMode.hashed && t.value == none then
        .error (.valueError ("Token '" ++ token_id ++ "' was created in hashed mode — " ++
          "the plaintext value was never stored on disk and cannot be recovered."))
      else .ok t
    else showAux mode token_id ts

/-- `TokenStore.show_token`. -/
def show_token (mode : AuthMode) (token_id : String) (fs : SecretsDir) :
    Except PyError TokenRecord :=
  showAux mode token_id (_load fs)

/-- `raw_value = value or ("sk-" + secrets.token_urlsafe(48))`: Python `or`
falls through on `None` and on the empty string.  `gval` stands for the
output of `secrets.token_urlsafe(48)`. -/
def rawValueOf (gval : String) (value : Option String) : String :=
  match value with
  | none => "sk-" ++ gval
  | some s => if s == "" then "sk-" ++ gval else s

/-- `TokenStore.create_token`.  `sha` stands for
`lambda s: hashlib.sha256(s.encode()).hexdigest()`; `gid` for the output of
`secrets.token_hex(6)`; `gval` for `secrets.token_urlsafe(48)`; `now` for the
ISO timestamp.  Returns the display record together with the new filesystem
state; an exception leaves the filesystem untouched. -/
def create_token (mode : AuthMode) (sha : String → String)
    (gid gval now : String) (name : String) (value : Option String)
    (fs : SecretsDir) : Except PyError (TokenRecord × SecretsDir) :=
  let token_id := "tk_" ++ gid
  let raw_value := rawValueOf gval value
  if isBlank raw_value then
    .error (.valueError "Token value must not be empty.")
  else
    let pair : TokenRecord × TokenRecord :=
      if mode == AuthMode.hashed then
        let token_hash := sha raw_value
        (⟨token_id, name, now, false, none, none, some token_hash⟩,
         ⟨token_id, name, now, false, none, some raw_value, some token_hash⟩)
      else
        let r : TokenRecord := ⟨token_id, name, now, false, none, some raw_value, none⟩
        (r, r)
    let tokens := _load fs ++ [pair.1]
    let fs1 := _save tokens fs
    let fs2 := _sync mode tokens fs1
    .ok (pair.2, fs2)

/-- The loop of `TokenStore.revoke_token` over the loaded record list:
find the first record with the given id, reject if already revoked,
otherwise mark it revoked in place.  Returns the updated record together
with the updated list. -/
def revokeAux (now token_id : String) :
    List TokenRecord → Except PyError (TokenRecord × List TokenRecord)
  | [] => .error (.keyError ("Token not found: " ++ token_id))
  | t :: ts =>
    if t.id == token_id then
      if t.revoked then
        .error (.valueError ("Token " ++ token_id ++ " is already revoked."))
      else
        let t' := { t with revoked := true, revoked_at := some now }
        .ok (t', t' :: ts)
    else
      match revokeAux now token_id ts with
      | .ok (r, ts') => .ok (r, t :: ts')
      | .error e => .error e

/-- `TokenStore.revoke_token`. -/
def revoke_token (mode : AuthMode) (now : String) (token_id : String)
    (fs : SecretsDir) : Except PyError (TokenRecord × SecretsDir) :=
  match revokeAux now token_id (_load fs) with
  | .ok (t, tokens) => .ok (t, _sync mode tokens (_save tokens fs))
  | .error e => .error e

end TokenStore

/-!
## orchestrator.py — Step, run_steps
-/

/-- `orchestrator.py` — dataclass `Step`.  In the source a step's `fn` and
`skip_if` are zero-argument closures over earlier `Step` objects whose
mutable `result` fields the runner fills in; here that shared mutable state
is made explicit: both receive the list of results produced so far (one
`Option α` per already-processed step, `none` when that step was skipped). -/
structure Step (α : Type) where
  label : String
  fn : List (Option α) → α
  skip_if : Option (List (Option α) → Bool) := none

/-- Evaluation of `step.skip_if and step.skip_if()` at execution time. -/
def Step.skipEval {α : Type} (s : Step α) (results : List (Option α)) : Bool :=
  match s.skip_if with
  | some p => p results
  | none => false

/-- The runner's state: the results of the steps processed so far (in list
order) and the labels of the steps actually executed (the `[STEP]` log
lines), in execution order. -/
structure RunState (α : Type) where
  results : List (Option α)
  trace : List String

/-- One iteration of the `for step in steps` loop of `run_steps`. -/
def runStep {α : Type} (st : RunState α) (s : Step α) : RunState α :=
  if s.skipEval st.results then
    { results := st.results ++ [none], trace := st.trace }
  else
    { results := st.results ++ [some (s.fn st.results)], trace := st.trace ++ [s.label] }

/-- `orchestrator.run_steps`: process the steps in list order. -/
def run_steps {α : Type} (steps : List (Step α)) (st : RunState α) : RunState α :=
  steps.foldl runStep st

/-- The labels of the steps that execute (are not skipped), in list order,
computed directly from the step list and the pre-existing results. -/
def executedLabels {α : Type} : List (Step α) → List (Option α) → List String
  | [], _ => []
  | s :: rest, res =>
    if s.skipEval res then executedLabels rest (res ++ [none])
    else s.label :: executedLabels rest (res ++ [some (s.fn res)])

/-!
## orchestrator.py — bootstrap token resolution and the run_deploy cleanup
-/

/-- `orchestrator.py` — dataclass `TokenRuntime`. -/
structure TokenRuntime where
  value : Option String
  temporary_id : Option String := none
deriving DecidableEq, Repr

/-- The fields of `Config` consumed by `_ensure_first_token`. -/
structure Cfg where
  auth_mode : AuthMode
  api_token_name : String
  api_token : Option String := none

/-- `orchestrator._ensure_first_token`.  `gid`, `gval`, `now` are the
entropy/timestamp inputs consumed by the `create_token` call (if any). -/
def ensure_first_token (sha : String → String) (gid gval now : String)
    (cfg : Cfg) (fs : SecretsDir) : Except PyError (TokenRuntime × SecretsDir) :=
  match TokenStore.active_tokens fs with
  | [] =>
    match TokenStore.create_token cfg.auth_mode sha gid gval now
        cfg.api_token_name cfg.api_token fs with
    | .ok (record, fs') => .ok (⟨record.value, none⟩, fs')
    | .error e => .error e
  | t :: _ =>
    if truthyS t.value then
      .ok (⟨t.value, none⟩, fs)
    else
      match TokenStore.create_token cfg.auth_mode sha gid gval now
          "__deploy-smoke-test" none fs with
      | .ok (smoke, fs') => .ok (⟨smoke.value, some smoke.id⟩, fs')
      | .error e => .error e

/-- Outcome of the `try/finally` at the end of `orchestrator.run_deploy`. -/
structure DeployOutcome where
  /-- The pipeline's own outcome (normal return or the original exception). -/
  outcome : Except PyError Unit
  /-- The id whose revocation succeeded (the `[CLEANUP]` message), if any. -/
  revoked : Option String
  /-- The id whose revocation failed (the `[WARN]` message), if any. -/
  warned : Option String
  /-- The secrets directory after cleanup. -/
  fs : SecretsDir
deriving Repr

/-- The `finally` block of `orchestrator.run_deploy`: `body` is the outcome
of the `try` suite, `tokenResult` is `token_step.result` (still `None` when
the pipeline aborted before the token step).  If the token runtime carries a
(truthy) `temporary_id`, revoke it through a fresh `TokenStore`; a failure of
that revocation is caught and logged as a warning, and the body's outcome is
returned/propagated unchanged in every case. -/
def run_deploy_finally (mode : AuthMode) (now : String)
    (body : Except PyError Unit) (tokenResult : Option TokenRuntime)
    (fs : SecretsDir) : DeployOutcome :=
  match tokenResult with
  | none => ⟨body, none, none, fs⟩
  | some runtime =>
    match runtime.temporary_id with
    | none => ⟨body, none, none, fs⟩
    | some tid =>
      if tid == "" then ⟨body, none, none, fs⟩
      else
        match TokenStore.revoke_token mode now tid fs with
        | .ok (_, fs') => ⟨body, some tid, none, fs'⟩
        | .error _ => ⟨body, none, some tid, fs⟩

/-!
## system.py — port allocator (modelled from the spec)
-/

/-- Modelled from the spec: `llama_deploy.system.pick_free_bind_port`
(`system.py` is not among the provided sources; only its tests are).  Scans
ports starting at `preferred_port` and incrementing by one, skipping any port
in `avoid`, returning the first port for which the bind-probe
(`_is_bind_port_free`, an injected collaborator) reports the port available
on `host`; the scan stops at the top of the practical port range (65536). -/
def scanPorts (is_bind_port_free : String → Nat → Bool) (host : String)
    (avoid : List Nat) : Nat → Nat → Option Nat
  | 0, _ => none
  | fuel + 1, p =>
    if !(avoid.contains p) && is_bind_port_free host p then some p
    else scanPorts is_bind_port_free host avoid fuel (p + 1)

/-- Modelled from the spec: `llama_deploy.system.pick_free_bind_port`, the
entry point — scan from `preferred_port` up to the end of the port range. -/
def pick_free_bind_port (is_bind_port_free : String → Nat → Bool)
    (host : String) (preferred_port : Nat) (avoid : List Nat) : Option Nat :=
  scanPorts is_bind_port_free host avoid (65536 - preferred_port) preferred_port

/-!
## Shared concrete inputs used by witnesses
-/

/-- A stand-in for the SHA-256 hex-digest collaborator in concrete runs. -/
def shaT : String → String := fun s => s ++ "#"

/-- A fresh secrets directory: nothing exists yet. -/
def freshFs : SecretsDir := {}

/-!
## Helper lemmas
-/

namespace TokenStore

/-- A generated token value `"sk-" ++ gval` is never blank (its first
character is `s`). -/
theorem isBlank_sk_append (gval : String) : isBlank ("sk-" ++ gval) = false := by
  have hs : ('s'.isWhitespace) = false := by decide
  simp only [isBlank, String.data_append]
  simp [List.all_append, List.all_cons, hs]

/-- Unfolding `create_token` when the raw value is not blank. -/
theorem create_token_not_blank (mode : AuthMode) (sha : String → String)
    (gid gval now name : String) (value : Option String) (fs : SecretsDir)
    (h : isBlank (rawValueOf gval value) = false) :
    create_token mode sha gid gval now name value fs =
      (let raw := rawValueOf gval value
       let pair : TokenRecord × TokenRecord :=
        if mode == AuthMode.hashed then
          (⟨"tk_" ++ gid, name, now, false, none, none, some (sha raw)⟩,
           ⟨"tk_" ++ gid, name, now, false, none, some raw, some (sha raw)⟩)
        else
          (⟨"tk_" ++ gid, name, now, false, none, some raw, none⟩,
           ⟨"tk_" ++ gid, name, now, false, none, some raw, none⟩)
       .ok (pair.2, _sync mode (_load fs ++ [pair.1]) (_save (_load fs ++ [pair.1]) fs))) := by
  simp only [create_token, h, Bool.false_eq_true, if_false]

/-- `_sync` never touches `tokens.json`: loading after a save-and-sync gives
back exactly the saved list. -/
theorem load_sync_save (mode : AuthMode) (tokens : List TokenRecord) (fs : SecretsDir) :
    _load (_sync mode tokens (_save tokens fs)) = tokens := by
  cases mode <;> rfl

end TokenStore

/-!
## Claims
-/

/-- C1: In hashed mode, for any name and any non-rejected value (explicit or
generated), `create_token` persists a record whose `value` field is `none`
and whose `hash` field is the SHA-256 hex digest of the plaintext, while the
record returned to the caller carries that plaintext — so the digest of the
returned plaintext equals the persisted hash. -/
theorem c1_hashed_create_persists_hash_only
    (sha : String → String) (gid gval now name : String) (value : Option String)
    (fs : SecretsDir)
    (h : isBlank (TokenStore.rawValueOf gval value) = false) :
    ∃ display fs',
      TokenStore.create_token AuthMode.hashed sha gid gval now name value fs =
        .ok (display, fs') ∧
      display.value = some (TokenStore.rawValueOf gval value) ∧
      ∃ stored,
        TokenStore._load fs' = TokenStore._load fs ++ [stored] ∧
        stored.value = none ∧
        stored.hash = some (sha (TokenStore.rawValueOf gval value)) ∧
        sha ((display.value).getD "") = (stored.hash).getD "" := by
  have hc := TokenStore.create_token_not_blank AuthMode.hashed sha gid gval now name value fs h
  simp only [beq_self_eq_true, if_true] at hc
  exact ⟨_, _, hc, rfl,
    ⟨"tk_" ++ gid, name, now, false, none, none, some (sha (TokenStore.rawValueOf gval value))⟩,
    TokenStore.load_sync_save AuthMode.hashed _ fs, rfl, rfl, rfl⟩

/-- C1 witness: a concrete hashed-mode creation with an explicit value. -/
theorem c1_witness :
    ∃ display fs',
      TokenStore.create_token AuthMode.hashed shaT "aaaaaaaaaaaa" "GEN" "t0" "app"
        (some "sk-secret-token") freshFs = .ok (display, fs') ∧
      display.value = some (TokenStore.rawValueOf "GEN" (some "sk-secret-token")) ∧
      ∃ stored,
        TokenStore._load fs' = TokenStore._load freshFs ++ [stored] ∧
        stored.value = none ∧
        stored.hash = some (shaT (TokenStore.rawValueOf "GEN" (some "sk-secret-token"))) ∧
        shaT ((display.value).getD "") = (stored.hash).getD "" :=
  c1_hashed_create_persists_hash_only shaT "aaaaaaaaaaaa" "GEN" "t0" "app"
    (some "sk-secret-token") freshFs (by decide)

/-- C5 counterexample: the claim says an explicitly supplied empty value
fails with InvalidInput and creates no token; but Python's
`value or generated` treats `""` as absent, so `create_token(name, "")`
succeeds and appends a record with a freshly generated value. -/
theorem c5_counterexample :
    ∃ display fs',
      TokenStore.create_token AuthMode.plaintext shaT "aaaaaaaaaaaa" "GEN" "t0" "app"
        (some "") freshFs = .ok (display, fs') ∧
      display.value = some "sk-GEN" ∧
      (TokenStore._load fs').length = 1 :=
  ⟨_, _, rfl, rfl, rfl⟩

/-- C5 (amended): an explicitly supplied value that is *non-empty but
consists only of whitespace* fails with InvalidInput (`ValueError`) before
anything is written, and the store state passed in is returned unchanged to
the caller; an explicitly supplied *empty* value is treated exactly like an
absent value (a fresh random value is generated). -/
theorem c5_amended_whitespace_value_rejected
    (mode : AuthMode) (sha : String → String) (gid gval now name s : String)
    (fs : SecretsDir) (hne : s ≠ "") (hblank : isBlank s = true) :
    (TokenStore.create_token mode sha gid gval now name (some s) fs =
      .error (.valueError "Token value must not be empty.")) ∧
    (TokenStore.create_token mode sha gid gval now name (some "") fs =
      TokenStore.create_token mode sha gid gval now name none fs) := by
  constructor
  · have hraw : TokenStore.rawValueOf gval (some s) = s := by
      simp [TokenStore.rawValueOf, hne]
    simp [TokenStore.create_token, hraw, hblank]
  · rfl

/-- C5 witness: the whitespace-only value `"  "` is rejected. -/
theorem c5_witness :
    (TokenStore.create_token AuthMode.plaintext shaT "aaaaaaaaaaaa" "GEN" "t0" "app"
      (some "  ") freshFs = .error (.valueError "Token value must not be empty.")) ∧
    (TokenStore.create_token AuthMode.plaintext shaT "aaaaaaaaaaaa" "GEN" "t0" "app"
      (some "") freshFs =
      TokenStore.create_token AuthMode.plaintext shaT "aaaaaaaaaaaa" "GEN" "t0" "app"
        none freshFs) :=
  c5_amended_whitespace_value_rejected AuthMode.plaintext shaT "aaaaaaaaaaaa" "GEN" "t0"
    "app" "  " freshFs (by decide) (by decide)

/-- C10: a `TokenStore` whose `tokens.json` does not exist behaves exactly
like one over an empty record collection: `list_tokens`/`active_tokens`
return `[]`, `show_token`/`revoke_token` on any id fail with NotFound
(`KeyError`), and the first `create_token` creates the secrets directory,
the record file, and the mode-appropriate derived artifact. -/
theorem c10_missing_tokens_json_behaves_as_empty :
    TokenStore.list_tokens freshFs = [] ∧
    TokenStore.active_tokens freshFs = [] ∧
    (∀ mode tid, TokenStore.show_token mode tid freshFs =
      .error (.keyError ("Token not found: " ++ tid))) ∧
    (∀ mode now tid, TokenStore.revoke_token mode now tid freshFs =
      .error (.keyError ("Token not found: " ++ tid))) ∧
    (∀ mode (sha : String → String) gid gval now name,
      ∃ display fs',
        TokenStore.create_token mode sha gid gval now name none freshFs =
          .ok (display, fs') ∧
        fs'.dirExists = true ∧
        (∃ stored, fs'.tokensJson = some [stored]) ∧
        (mode = AuthMode.plaintext → (fs'.apiKeys).isSome = true) ∧
        (mode = AuthMode.hashed → (fs'.tokenHashes).isSome = true)) := by
  refine ⟨rfl, rfl, fun mode tid => rfl, fun mode now tid => rfl,
    fun mode sha gid gval now name => ?_⟩
  have hc := TokenStore.create_token_not_blank mode sha gid gval now name none freshFs
    (TokenStore.isBlank_sk_append gval)
  cases mode
  · simp only [show (AuthMode.plaintext == AuthMode.hashed) = false from rfl,
      Bool.false_eq_true, if_false] at hc
    exact ⟨_, _, hc, rfl, ⟨_, rfl⟩, fun _ => rfl, fun hcontra => absurd hcontra (by decide)⟩
  · simp only [beq_self_eq_true, if_true] at hc
    exact ⟨_, _, hc, rfl, ⟨_, rfl⟩, fun hcontra => absurd hcontra (by decide), fun _ => rfl⟩

/-- C10 witness: the NotFound and creation conjuncts at concrete inputs. -/
theorem c10_witness :
    TokenStore.show_token AuthMode.plaintext "tk_zz" freshFs =
      .error (.keyError ("Token not found: " ++ "tk_zz")) :=
  c10_missing_tokens_json_behaves_as_empty.2.2.1 AuthMode.plaintext "tk_zz"

namespace TokenStore

/-- `showAux` on a list containing no record with the requested id. -/
theorem showAux_not_found (mode : AuthMode) (tid : String) (toks : List TokenRecord)
    (h : ∀ t ∈ toks, t.id ≠ tid) :
    showAux mode tid toks = .error (.keyError ("Token not found: " ++ tid)) := by
  induction toks with
  | nil => rfl
  | cons u ts ih =>
    have hu : (u.id == tid) = false :=
      beq_eq_false_iff_ne.mpr (h u (List.mem_cons_self u ts))
    simp only [showAux, hu, Bool.false_eq_true, if_false]
    exact ih fun t ht => h t (List.mem_cons_of_mem u ht)

/-- `showAux` on a list with unique ids containing the requested record. -/
theorem showAux_found (mode : AuthMode) (tid : String) (toks : List TokenRecord)
    (hn : (toks.map TokenRecord.id).Nodup) (t : TokenRecord)
    (hmem : t ∈ toks) (hid : t.id = tid) :
    showAux mode tid toks =
      (if mode == AuthMode.hashed && t.value == none then
        .error (.valueError ("Token '" ++ tid ++ "' was created in hashed mode — " ++
          "the plaintext value was never stored on disk and cannot be recovered."))
      else .ok t) := by
  induction toks with
  | nil => cases hmem
  | cons u ts ih =>
    rw [List.map_cons, List.nodup_cons] at hn
    rcases List.mem_cons.mp hmem with rfl | hmem'
    · simp only [showAux, beq_iff_eq.mpr hid, if_true]
    · have hu : (u.id == tid) = false := by
        refine beq_eq_false_iff_ne.mpr fun he => hn.1 ?_
        rw [he, ← hid]
        exact List.mem_map_of_mem TokenRecord.id hmem'
      simp only [showAux, hu, Bool.false_eq_true, if_false]
      exact ih hn.2 hmem'

end TokenStore

/-- C8: `show_token` fails with NotFound (`KeyError`) when no record has the
requested id; fails with InvalidState (`ValueError`) when the store is in
hashed mode and the matching record has no stored plaintext; and otherwise
returns the matching record (which carries its stored plaintext).  The
operation is read-only: it is a pure function of the store state and returns
no modified state. -/
theorem c8_show_token_cases (mode : AuthMode) (tid : String) (fs : SecretsDir) :
    ((∀ t ∈ TokenStore._load fs, t.id ≠ tid) →
      TokenStore.show_token mode tid fs =
        .error (.keyError ("Token not found: " ++ tid))) ∧
    (∀ t, ((TokenStore._load fs).map TokenRecord.id).Nodup →
      t ∈ TokenStore._load fs → t.id = tid →
      ((mode = AuthMode.hashed → t.value = none →
        TokenStore.show_token mode tid fs =
          .error (.valueError ("Token '" ++ tid ++ "' was created in hashed mode — " ++
            "the plaintext value was never stored on disk and cannot be recovered."))) ∧
       ((mode = AuthMode.hashed → t.value ≠ none) →
        TokenStore.show_token mode tid fs = .ok t))) := by
  refine ⟨fun h => TokenStore.showAux_not_found mode tid _ h, fun t hn hmem hid => ⟨?_, ?_⟩⟩
  · intro hm hv
    rw [TokenStore.show_token, TokenStore.showAux_found mode tid _ hn t hmem hid]
    subst hm
    simp [hv]
  · intro hnv
    rw [TokenStore.show_token, TokenStore.showAux_found mode tid _ hn t hmem hid]
    cases mode
    · simp
    · have : t.value ≠ none := hnv rfl
      have hb : (t.value == none) = false := beq_eq_false_iff_ne.mpr this
      simp [hb]

/-- A concrete one-record plaintext-mode store used by witnesses. -/
def plainRec : TokenRecord :=
  ⟨"tk_aaaaaaaaaaaa", "app", "t0", false, none, some "sk-explicit-token", none⟩

/-- The store holding exactly `plainRec`, as written by `create_token`. -/
def plainFs : SecretsDir :=
  ⟨true, some [plainRec], some "sk-explicit-token\n", none⟩

/-- C8 witness: on the concrete plaintext-mode store, `show_token` returns
the record with its plaintext. -/
theorem c8_witness :
    TokenStore.show_token AuthMode.plaintext "tk_aaaaaaaaaaaa" plainFs = .ok plainRec :=
  ((c8_show_token_cases AuthMode.plaintext "tk_aaaaaaaaaaaa" plainFs).2 plainRec
    (by decide) (by decide) (by decide)).2 (fun h => absurd h (by decide))

namespace TokenStore

/-- The in-place revocation applied to a record when its id matches. -/
def markRevoked (now tid : String) (u : TokenRecord) : TokenRecord :=
  if u.id == tid then { u with revoked := true, revoked_at := some now } else u

/-- `revokeAux` on a list containing no record with the requested id. -/
theorem revokeAux_not_found (now tid : String) (toks : List TokenRecord)
    (h : ∀ t ∈ toks, t.id ≠ tid) :
    revokeAux now tid toks = .error (.keyError ("Token not found: " ++ tid)) := by
  induction toks with
  | nil => rfl
  | cons u ts ih =>
    have hu : (u.id == tid) = false :=
      beq_eq_false_iff_ne.mpr (h u (List.mem_cons_self u ts))
    simp only [revokeAux, hu, Bool.false_eq_true, if_false,
      ih fun t ht => h t (List.mem_cons_of_mem u ht)]

/-- `revokeAux` on a list with unique ids whose matching record is already
revoked. -/
theorem revokeAux_found_revoked (now tid : String) (toks : List TokenRecord)
    (hn : (toks.map TokenRecord.id).Nodup) (t : TokenRecord)
    (hmem : t ∈ toks) (hid : t.id = tid) (hrev : t.revoked = true) :
    revokeAux now tid toks = .error (.valueError ("Token " ++ tid ++ " is already revoked.")) := by
  induction toks with
  | nil => cases hmem
  | cons u ts ih =>
    rw [List.map_cons, List.nodup_cons] at hn
    rcases List.mem_cons.mp hmem with rfl | hmem'
    · simp only [revokeAux, beq_iff_eq.mpr hid, if_true, hrev]
    · have hu : (u.id == tid) = false := by
        refine beq_eq_false_iff_ne.mpr fun he => hn.1 ?_
        rw [he, ← hid]
        exact List.mem_map_of_mem TokenRecord.id hmem'
      simp only [revokeAux, hu, Bool.false_eq_true, if_false, ih hn.2 hmem']

/-- `revokeAux` on a list with unique ids whose matching record is active:
the record is marked revoked in place. -/
theorem revokeAux_found_active (now tid : String) (toks : List TokenRecord)
    (hn : (toks.map TokenRecord.id).Nodup) (t : TokenRecord)
    (hmem : t ∈ toks) (hid : t.id = tid) (hrev : t.revoked = false) :
    revokeAux now tid toks =
      .ok ({ t with revoked := true, revoked_at := some now },
           toks.map (markRevoked now tid)) := by
  induction toks with
  | nil => cases hmem
  | cons u ts ih =>
    rw [List.map_cons, List.nodup_cons] at hn
    rcases List.mem_cons.mp hmem with rfl | hmem'
    · have hmap : ts.map (markRevoked now tid) = ts := by
        have hcongr : ts.map (markRevoked now tid) = ts.map id := by
          refine List.map_congr_left fun a ha => ?_
          have ha' : (a.id == tid) = false := by
            refine beq_eq_false_iff_ne.mpr fun he => hn.1 ?_
            rw [hid, ← he]
            exact List.mem_map_of_mem TokenRecord.id ha
          simp [markRevoked, ha']
        rw [hcongr, List.map_id]
      simp only [revokeAux, beq_iff_eq.mpr hid, if_true, hrev, Bool.false_eq_true, if_false,
        List.map_cons, markRevoked, hmap, List.map_id]
    · have hu : (u.id == tid) = false := by
        refine beq_eq_false_iff_ne.mpr fun he => hn.1 ?_
        rw [he, ← hid]
        exact List.mem_map_of_mem TokenRecord.id hmem'
      simp only [revokeAux, hu, Bool.false_eq_true, if_false, ih hn.2 hmem',
        List.map_cons, markRevoked]

/-- Filtering the active records after an in-place revocation: the revoked
id disappears, everything else is untouched. -/
theorem filter_active_map_markRevoked (now tid : String) (toks : List TokenRecord) :
    (toks.map (markRevoked now tid)).filter (fun u => !u.revoked) =
      (toks.filter (fun u => !u.revoked)).filter (fun u => !(u.id == tid)) := by
  induction toks with
  | nil => rfl
  | cons u ts ih =>
    by_cases hu : (u.id == tid) = true
    · by_cases hr : u.revoked = true
      · simp [markRevoked, hu, hr, ih]
      · simp only [Bool.not_eq_true] at hr
        simp [markRevoked, hu, hr, ih]
    · simp only [Bool.not_eq_true] at hu
      by_cases hr : u.revoked = true
      · simp [markRevoked, hu, hr, ih]
      · simp only [Bool.not_eq_true] at hr
        simp [markRevoked, hu, hr, ih]

/-- Membership in the keyfile line list. -/
theorem mem_activeValues {toks : List TokenRecord} {v : String} :
    v ∈ activeValues toks ↔
      ∃ u ∈ toks, u.revoked = false ∧ u.value = some v ∧ v ≠ "" := by
  rw [activeValues, List.mem_filterMap]
  constructor
  · rintro ⟨u, hu, hg⟩
    refine ⟨u, hu, ?_⟩
    by_cases hr : u.revoked = true
    · simp [hr] at hg
    · simp only [Bool.not_eq_true] at hr
      cases hv : u.value with
      | none => simp [hr, hv] at hg
      | some w =>
        by_cases hw : (w == "") = true
        · simp [hr, hv, hw] at hg
        · have hw2 : (w == "") = false := by simpa using hw
          simp only [hr, hv, hw2, Bool.false_eq_true, if_false] at hg
          refine ⟨hr, ?_, ?_⟩
          · exact hg
          · rw [← Option.some.inj hg]
            exact beq_eq_false_iff_ne.mp hw2
  · rintro ⟨u, hu, hr, hv, hne⟩
    exact ⟨u, hu, by simp [hr, hv, beq_eq_false_iff_ne.mpr hne]⟩

/-- Membership in the hash list. -/
theorem mem_activeHashes {toks : List TokenRecord} {v : String} :
    v ∈ activeHashes toks ↔
      ∃ u ∈ toks, u.revoked = false ∧ u.hash = some v ∧ v ≠ "" := by
  rw [activeHashes, List.mem_filterMap]
  constructor
  · rintro ⟨u, hu, hg⟩
    refine ⟨u, hu, ?_⟩
    by_cases hr : u.revoked = true
    · simp [hr] at hg
    · simp only [Bool.not_eq_true] at hr
      cases hv : u.hash with
      | none => simp [hr, hv] at hg
      | some w =>
        by_cases hw : (w == "") = true
        · simp [hr, hv, hw] at hg
        · have hw2 : (w == "") = false := by simpa using hw
          simp only [hr, hv, hw2, Bool.false_eq_true, if_false] at hg
          refine ⟨hr, ?_, ?_⟩
          · exact hg
          · rw [← Option.some.inj hg]
            exact beq_eq_false_iff_ne.mp hw2
  · rintro ⟨u, hu, hr, hv, hne⟩
    exact ⟨u, hu, by simp [hr, hv, beq_eq_false_iff_ne.mpr hne]⟩

end TokenStore

/-- C7: `revoke_token` on an unknown id fails with NotFound (`KeyError`); on
an already-revoked record it fails with AlreadyRevoked (`ValueError`) before
any write, so the store is unchanged; on an active record it returns the
record with `revoked = true` and `revoked_at` set, after which the record
appears neither in `active_tokens` nor in the derived artifact rebuilt for
the store's mode. -/
theorem c7_revoke_token_cases (mode : AuthMode) (now tid : String) (fs : SecretsDir) :
    ((∀ t ∈ TokenStore._load fs, t.id ≠ tid) →
      TokenStore.revoke_token mode now tid fs =
        .error (.keyError ("Token not found: " ++ tid))) ∧
    (∀ t, ((TokenStore._load fs).map TokenRecord.id).Nodup →
      t ∈ TokenStore._load fs → t.id = tid →
      ((t.revoked = true →
        TokenStore.revoke_token mode now tid fs =
          .error (.valueError ("Token " ++ tid ++ " is already revoked."))) ∧
       (t.revoked = false → ∃ fs',
        TokenStore.revoke_token mode now tid fs =
          .ok ({ t with revoked := true, revoked_at := some now }, fs') ∧
        TokenStore._load fs' = (TokenStore._load fs).map (TokenStore.markRevoked now tid) ∧
        TokenStore.active_tokens fs' =
          (TokenStore.active_tokens fs).filter (fun u => !(u.id == tid)) ∧
        (∀ u ∈ TokenStore.active_tokens fs', u.id ≠ tid) ∧
        (mode = AuthMode.plaintext → fs'.apiKeys =
          some (String.intercalate "\n"
            (TokenStore.activeValues (TokenStore._load fs')) ++ "\n")) ∧
        (mode = AuthMode.hashed → fs'.tokenHashes =
          some (TokenStore.activeHashes (TokenStore._load fs'))) ∧
        (∀ v, t.value = some v →
          (∀ u ∈ TokenStore._load fs, u.id ≠ tid → u.value ≠ some v) →
          v ∉ TokenStore.activeValues (TokenStore._load fs')) ∧
        (∀ h, t.hash = some h →
          (∀ u ∈ TokenStore._load fs, u.id ≠ tid → u.hash ≠ some h) →
          h ∉ TokenStore.activeHashes (TokenStore._load fs'))))) := by
  constructor
  · intro h
    rw [TokenStore.revoke_token, TokenStore.revokeAux_not_found now tid _ h]
  · intro t hn hmem hid
    constructor
    · intro hrev
      rw [TokenStore.revoke_token,
        TokenStore.revokeAux_found_revoked now tid _ hn t hmem hid hrev]
    · intro hrev
      rw [TokenStore.revoke_token,
        TokenStore.revokeAux_found_active now tid _ hn t hmem hid hrev]
      refine ⟨_, rfl, TokenStore.load_sync_save mode _ fs, ?_, ?_, ?_, ?_, ?_, ?_⟩
      · rw [TokenStore.active_tokens, TokenStore.load_sync_save mode _ fs,
          TokenStore.active_tokens]
        exact TokenStore.filter_active_map_markRevoked now tid _
      · intro u hu
        rw [TokenStore.active_tokens, TokenStore.load_sync_save mode _ fs] at hu
        rw [TokenStore.filter_active_map_markRevoked now tid _] at hu
        have := List.of_mem_filter hu
        exact fun he => by simp [he] at this
      · intro hm
        subst hm
        rfl
      · intro hm
        subst hm
        rfl
      · intro v hv hothers hvmem
        rw [TokenStore.load_sync_save mode _ fs] at hvmem
        rcases TokenStore.mem_activeValues.mp hvmem with ⟨u', hu', hur, huv, hvne⟩
        rcases List.mem_map.mp hu' with ⟨u, hu, rfl⟩
        by_cases hui : (u.id == tid) = true
        · simp [TokenStore.markRevoked, hui] at hur
        · have hne : u.id ≠ tid := beq_eq_false_iff_ne.mp (by simpa using hui)
          simp only [TokenStore.markRevoked, hui, Bool.false_eq_true, if_false] at hur huv
          exact hothers u hu hne huv
      · intro h hh hothers hhmem
        rw [TokenStore.load_sync_save mode _ fs] at hhmem
        rcases TokenStore.mem_activeHashes.mp hhmem with ⟨u', hu', hur, huh, hhne⟩
        rcases List.mem_map.mp hu' with ⟨u, hu, rfl⟩
        by_cases hui : (u.id == tid) = true
        · simp [TokenStore.markRevoked, hui] at hur
        · have hne : u.id ≠ tid := beq_eq_false_iff_ne.mp (by simpa using hui)
          simp only [TokenStore.markRevoked, hui, Bool.false_eq_true, if_false] at hur huh
          exact hothers u hu hne huh

/-- A two-record plaintext store used by the C7 witness. -/
def twoRecFs : SecretsDir :=
  ⟨true,
   some [⟨"tk_a", "one", "t0", false, none, some "sk-one", none⟩,
         ⟨"tk_b", "two", "t1", false, none, some "sk-two", none⟩],
   some "sk-one\nsk-two\n", none⟩

/-- C7 witness: revoking the active record `tk_b` of the concrete store
succeeds and removes it from the active set. -/
theorem c7_witness :
    ∃ fs',
      TokenStore.revoke_token AuthMode.plaintext "t2" "tk_b" twoRecFs =
        .ok ({ (⟨"tk_b", "two", "t1", false, none, some "sk-two", none⟩ : TokenRecord) with
          revoked := true, revoked_at := some "t2" }, fs') ∧
      TokenStore._load fs' =
        (TokenStore._load twoRecFs).map (TokenStore.markRevoked "t2" "tk_b") ∧
      TokenStore.active_tokens fs' =
        (TokenStore.active_tokens twoRecFs).filter (fun u => !(u.id == "tk_b")) ∧
      (∀ u ∈ TokenStore.active_tokens fs', u.id ≠ "tk_b") ∧
      (AuthMode.plaintext = AuthMode.plaintext → fs'.apiKeys =
        some (String.intercalate "\n"
          (TokenStore.activeValues (TokenStore._load fs')) ++ "\n")) ∧
      (AuthMode.plaintext = AuthMode.hashed → fs'.tokenHashes =
        some (TokenStore.activeHashes (TokenStore._load fs'))) ∧
      (∀ v, (some "sk-two" : Option String) = some v →
        (∀ u ∈ TokenStore._load twoRecFs, u.id ≠ "tk_b" → u.value ≠ some v) →
        v ∉ TokenStore.activeValues (TokenStore._load fs')) ∧
      (∀ h, (none : Option String) = some h →
        (∀ u ∈ TokenStore._load twoRecFs, u.id ≠ "tk_b" → u.hash ≠ some h) →
        h ∉ TokenStore.activeHashes (TokenStore._load fs')) :=
  ((c7_revoke_token_cases AuthMode.plaintext "t2" "tk_b" twoRecFs).2
    ⟨"tk_b", "two", "t1", false, none, some "sk-two", none⟩
    (by decide) (by decide) (by decide)).2 (by decide)

namespace TokenStore

/-- Inversion of a successful `create_token`: the returned state is the
save-and-sync of some record list. -/
theorem create_token_ok_inv (mode : AuthMode) (sha : String → String)
    (gid gval now name : String) (value : Option String) (fs : SecretsDir)
    (d : TokenRecord) (fs' : SecretsDir)
    (hok : create_token mode sha gid gval now name value fs = .ok (d, fs')) :
    ∃ tokens, fs' = _sync mode tokens (_save tokens fs) := by
  unfold create_token at hok
  by_cases hb : isBlank (rawValueOf gval value) = true
  · simp [hb] at hok
  · simp only [hb, Bool.false_eq_true, if_false] at hok
    injection hok with h1
    injection h1 with hd hfs
    exact ⟨_, hfs.symm⟩

/-- Inversion of a successful `revoke_token`: the returned state is the
save-and-sync of some record list. -/
theorem revoke_token_ok_inv (mode : AuthMode) (now tid : String) (fs : SecretsDir)
    (t : TokenRecord) (fs' : SecretsDir)
    (hok : revoke_token mode now tid fs = .ok (t, fs')) :
    ∃ tokens, fs' = _sync mode tokens (_save tokens fs) := by
  unfold revoke_token at hok
  cases haux : revokeAux now tid (_load fs) with
  | error e => rw [haux] at hok; cases hok
  | ok p =>
    rw [haux] at hok
    injection hok with h1
    injection h1 with hd hfs
    exact ⟨_, hfs.symm⟩

/-- The artifact written by a save-and-sync is exactly the projection of the
saved record list, in the mode-appropriate file. -/
theorem sync_artifact (mode : AuthMode) (tokens : List TokenRecord) (fs : SecretsDir) :
    (mode = AuthMode.plaintext → (_sync mode tokens (_save tokens fs)).apiKeys =
      some (String.intercalate "\n" (activeValues tokens) ++ "\n")) ∧
    (mode = AuthMode.hashed → (_sync mode tokens (_save tokens fs)).tokenHashes =
      some (activeHashes tokens)) := by
  cases mode
  · exact ⟨fun _ => rfl, fun hcontra => absurd hcontra (by decide)⟩
  · exact ⟨fun hcontra => absurd hcontra (by decide), fun _ => rfl⟩

/-- The keyfile line list is exactly the plaintext of the non-revoked
records when every non-revoked record holds a non-empty plaintext. -/
theorem activeValues_exact (toks : List TokenRecord)
    (h : ∀ t ∈ toks, t.revoked = false → ∃ v, t.value = some v ∧ v ≠ "") :
    activeValues toks =
      (toks.filter fun t => !t.revoked).map fun t => (t.value).getD "" := by
  induction toks with
  | nil => rfl
  | cons u ts ih =>
    have ih' := ih fun t ht hrev => h t (List.mem_cons_of_mem u ht) hrev
    by_cases hr : u.revoked = true
    · rw [activeValues, List.filterMap_cons]
      simp only [hr, if_true]
      rw [List.filter_cons_of_neg (by simp [hr])]
      exact ih'
    · have hr' : u.revoked = false := by simpa using hr
      obtain ⟨v, hv, hvne⟩ := h u (List.mem_cons_self u ts) hr'
      rw [activeValues, List.filterMap_cons]
      simp only [hr', Bool.false_eq_true, if_false, hv,
        beq_eq_false_iff_ne.mpr hvne]
      rw [List.filter_cons_of_pos (by simp [hr']), List.map_cons, hv]
      exact congrArg (List.cons v) ih'

/-- The hash list is exactly the hashes of the non-revoked records when
every non-revoked record holds a non-empty hash. -/
theorem activeHashes_exact (toks : List TokenRecord)
    (h : ∀ t ∈ toks, t.revoked = false → ∃ v, t.hash = some v ∧ v ≠ "") :
    activeHashes toks =
      (toks.filter fun t => !t.revoked).map fun t => (t.hash).getD "" := by
  induction toks with
  | nil => rfl
  | cons u ts ih =>
    have ih' := ih fun t ht hrev => h t (List.mem_cons_of_mem u ht) hrev
    by_cases hr : u.revoked = true
    · rw [activeHashes, List.filterMap_cons]
      simp only [hr, if_true]
      rw [List.filter_cons_of_neg (by simp [hr])]
      exact ih'
    · have hr' : u.revoked = false := by simpa using hr
      obtain ⟨v, hv, hvne⟩ := h u (List.mem_cons_self u ts) hr'
      rw [activeHashes, List.filterMap_cons]
      simp only [hr', Bool.false_eq_true, if_false, hv,
        beq_eq_false_iff_ne.mpr hvne]
      rw [List.filter_cons_of_pos (by simp [hr']), List.map_cons, hv]
      exact congrArg (List.cons v) ih'

end TokenStore

/-- C3: after every successful mutation (`create_token` or `revoke_token`),
the mode-appropriate derived artifact is rewritten in full as a pure
function of the persisted record list: in plaintext mode the keyfile is the
newline-joined active plaintext values, in hashed mode the hash file is the
list of active hashes — and whenever every non-revoked record carries a
non-empty plaintext (resp. hash), that projection is exactly the plaintexts
(resp. hashes) of the non-revoked records, one per line. -/
theorem c3_sync_rebuilds_artifact :
    (∀ mode (sha : String → String) gid gval now name value fs d fs',
      TokenStore.create_token mode sha gid gval now name value fs = .ok (d, fs') →
      (mode = AuthMode.plaintext → fs'.apiKeys =
        some (String.intercalate "\n"
          (TokenStore.activeValues (TokenStore._load fs')) ++ "\n")) ∧
      (mode = AuthMode.hashed → fs'.tokenHashes =
        some (TokenStore.activeHashes (TokenStore._load fs')))) ∧
    (∀ mode now tid fs t fs',
      TokenStore.revoke_token mode now tid fs = .ok (t, fs') →
      (mode = AuthMode.plaintext → fs'.apiKeys =
        some (String.intercalate "\n"
          (TokenStore.activeValues (TokenStore._load fs')) ++ "\n")) ∧
      (mode = AuthMode.hashed → fs'.tokenHashes =
        some (TokenStore.activeHashes (TokenStore._load fs')))) ∧
    (∀ toks, (∀ t ∈ toks, t.revoked = false → ∃ v, t.value = some v ∧ v ≠ "") →
      TokenStore.activeValues toks =
        (toks.filter fun t => !t.revoked).map fun t => (t.value).getD "") ∧
    (∀ toks, (∀ t ∈ toks, t.revoked = false → ∃ v, t.hash = some v ∧ v ≠ "") →
      TokenStore.activeHashes toks =
        (toks.filter fun t => !t.revoked).map fun t => (t.hash).getD "") := by
  refine ⟨?_, ?_, TokenStore.activeValues_exact, TokenStore.activeHashes_exact⟩
  · intro mode sha gid gval now name value fs d fs' hok
    obtain ⟨tokens, rfl⟩ :=
      TokenStore.create_token_ok_inv mode sha gid gval now name value fs d fs' hok
    rw [TokenStore.load_sync_save]
    exact TokenStore.sync_artifact mode tokens fs
  · intro mode now tid fs t fs' hok
    obtain ⟨tokens, rfl⟩ := TokenStore.revoke_token_ok_inv mode now tid fs t fs' hok
    rw [TokenStore.load_sync_save]
    exact TokenStore.sync_artifact mode tokens fs

/-- C3 witness: the keyfile written by a concrete plaintext-mode creation is
the projection of the persisted record list. -/
theorem c3_witness :
    (AuthMode.plaintext = AuthMode.plaintext → plainFs.apiKeys =
      some (String.intercalate "\n"
        (TokenStore.activeValues (TokenStore._load plainFs)) ++ "\n")) ∧
    (AuthMode.plaintext = AuthMode.hashed → plainFs.tokenHashes =
      some (TokenStore.activeHashes (TokenStore._load plainFs))) :=
  c3_sync_rebuilds_artifact.1 AuthMode.plaintext shaT "aaaaaaaaaaaa" "GEN" "t0" "app"
    (some "sk-explicit-token") freshFs plainRec plainFs (by rfl)

/-- C2: whatever the pipeline body's outcome, the `finally` block of
`run_deploy` preserves it unchanged; when the bootstrap-token step left a
runtime with a (truthy) `temporary_id`, revocation of that id is attempted
through the store, a successful revocation updates the store, and a failing
revocation is downgraded to a warning — the original outcome is never
masked.  When no runtime or no temporary id exists, nothing is revoked. -/
theorem c2_run_deploy_finally_preserves_outcome (mode : AuthMode) (now : String)
    (body : Except PyError Unit) (tokenResult : Option TokenRuntime) (fs : SecretsDir) :
    (run_deploy_finally mode now body tokenResult fs).outcome = body ∧
    (∀ rt tid, tokenResult = some rt → rt.temporary_id = some tid → tid ≠ "" →
      (∀ r fs', TokenStore.revoke_token mode now tid fs = .ok (r, fs') →
        run_deploy_finally mode now body tokenResult fs = ⟨body, some tid, none, fs'⟩) ∧
      (∀ e, TokenStore.revoke_token mode now tid fs = .error e →
        run_deploy_finally mode now body tokenResult fs = ⟨body, none, some tid, fs⟩)) ∧
    (tokenResult = none →
      run_deploy_finally mode now body tokenResult fs = ⟨body, none, none, fs⟩) ∧
    (∀ rt, tokenResult = some rt → truthyS rt.temporary_id = false →
      run_deploy_finally mode now body tokenResult fs = ⟨body, none, none, fs⟩) := by
  refine ⟨?_, ?_, ?_, ?_⟩
  · cases tokenResult with
    | none => rfl
    | some rt =>
      cases htid : rt.temporary_id with
      | none => simp [run_deploy_finally, htid]
      | some tid =>
        by_cases he : (tid == "") = true
        · simp [run_deploy_finally, htid, he]
        · have he' : (tid == "") = false := by simpa using he
          cases hrev : TokenStore.revoke_token mode now tid fs with
          | ok p => simp [run_deploy_finally, htid, he', hrev]
          | error e => simp [run_deploy_finally, htid, he', hrev]
  · rintro rt tid rfl htid hne
    have he : (tid == "") = false := beq_eq_false_iff_ne.mpr hne
    constructor
    · intro r fs' hrev
      simp [run_deploy_finally, htid, he, hrev]
    · intro e hrev
      simp [run_deploy_finally, htid, he, hrev]
  · rintro rfl
    rfl
  · rintro rt rfl htr
    cases htid : rt.temporary_id with
    | none => simp [run_deploy_finally, htid]
    | some tid =>
      rw [htid] at htr
      have he : (tid == "") = true := by simpa [truthyS] using htr
      simp [run_deploy_finally, htid, he]

/-- C2 witness: a failing pipeline with a temporary token whose revocation
itself fails (unknown id on a fresh store) — the warning is recorded and the
original failure is preserved. -/
theorem c2_witness :
    run_deploy_finally AuthMode.plaintext "t9" (.error (.valueError "boom"))
      (some ⟨some "sk-x", some "tk_b"⟩) freshFs =
      ⟨.error (.valueError "boom"), none, some "tk_b", freshFs⟩ :=
  ((c2_run_deploy_finally_preserves_outcome AuthMode.plaintext "t9"
      (.error (.valueError "boom")) (some ⟨some "sk-x", some "tk_b"⟩) freshFs).2.1
    ⟨some "sk-x", some "tk_b"⟩ "tk_b" rfl rfl (by decide)).2
    (.keyError ("Token not found: " ++ "tk_b")) (by rfl)

/-- Processing one more step first is the same as folding from its result. -/
theorem run_steps_cons {α : Type} (s : Step α) (rest : List (Step α)) (st : RunState α) :
    run_steps (s :: rest) st = run_steps rest (runStep st s) := rfl

/-- Each processed step appends exactly one result slot. -/
theorem runStep_results_length {α : Type} (st : RunState α) (s : Step α) :
    (runStep st s).results.length = st.results.length + 1 := by
  unfold runStep
  split <;> simp

/-- The runner appends exactly one result slot per step. -/
theorem run_steps_results_length {α : Type} (steps : List (Step α)) (st : RunState α) :
    (run_steps steps st).results.length = st.results.length + steps.length := by
  induction steps generalizing st with
  | nil => rfl
  | cons s rest ih =>
    rw [run_steps_cons, ih, runStep_results_length]
    simp only [List.length_cons]
    omega

/-- The runner never rewrites an already-recorded result slot. -/
theorem run_steps_preserves_prefix {α : Type} (steps : List (Step α)) (st : RunState α)
    (k : Nat) (hk : k < st.results.length) :
    (run_steps steps st).results[k]? = st.results[k]? := by
  induction steps generalizing st with
  | nil => rfl
  | cons s rest ih =>
    rw [run_steps_cons, ih (runStep st s) (by rw [runStep_results_length]; omega)]
    unfold runStep
    split <;> exact List.getElem?_append_left hk

/-- The `[STEP]` trace of a run is the labels of exactly the non-skipped
steps, in list order. -/
theorem run_steps_trace {α : Type} (steps : List (Step α)) (st : RunState α) :
    (run_steps steps st).trace = st.trace ++ executedLabels steps st.results := by
  induction steps generalizing st with
  | nil => simp [run_steps, executedLabels]
  | cons s rest ih =>
    rw [run_steps_cons, ih]
    by_cases h : s.skipEval st.results = true
    · simp [runStep, executedLabels, h]
    · have h' : s.skipEval st.results = false := by simpa using h
      simp [runStep, executedLabels, h']

/-- A run splits at any index into the run of the prefix followed by the
run of the suffix from the intermediate state. -/
theorem run_steps_take_drop {α : Type} (steps : List (Step α)) (i : Nat) (st : RunState α) :
    run_steps steps st = run_steps (steps.drop i) (run_steps (steps.take i) st) := by
  conv_lhs => rw [← List.take_append_drop i steps]
  rw [run_steps, run_steps, run_steps, List.foldl_append]

/-- The result slot of a non-skipped step holds exactly its action's value,
applied to the results available when it executed. -/
theorem run_steps_result_at {α : Type} (steps : List (Step α)) (st : RunState α)
    (i : Nat) (hi : i < steps.length)
    (hskip : (steps[i]).skipEval (run_steps (steps.take i) st).results = false) :
    (run_steps steps st).results[st.results.length + i]? =
      some (some ((steps[i]).fn (run_steps (steps.take i) st).results)) := by
  have hlen : (run_steps (steps.take i) st).results.length = st.results.length + i := by
    rw [run_steps_results_length, List.length_take, Nat.min_eq_left (Nat.le_of_lt hi)]
  rw [run_steps_take_drop steps i st, List.drop_eq_getElem_cons hi, run_steps_cons,
    run_steps_preserves_prefix _ _ _ (by rw [runStep_results_length, hlen]; omega)]
  unfold runStep
  rw [if_neg (by simp [hskip])]
  rw [← hlen]
  exact List.getElem?_concat_length _ _

/-- C4: `run_steps` processes the steps in exactly the list order, once
each: the executed-step trace equals the labels of the non-skipped steps in
list order, every step gets exactly one result slot, and for every step
whose skip predicate is absent or evaluates false at execution time the
slot at its position holds exactly the value its action returned. -/
theorem c4_run_steps_order_once_results {α : Type} (steps : List (Step α)) (st : RunState α) :
    (run_steps steps st).trace = st.trace ++ executedLabels steps st.results ∧
    (run_steps steps st).results.length = st.results.length + steps.length ∧
    (∀ i (hi : i < steps.length),
      (steps[i]).skipEval (run_steps (steps.take i) st).results = false →
      (run_steps steps st).results[st.results.length + i]? =
        some (some ((steps[i]).fn (run_steps (steps.take i) st).results))) :=
  ⟨run_steps_trace steps st, run_steps_results_length steps st,
   fun i hi hskip => run_steps_result_at steps st i hi hskip⟩

/-- Two concrete steps: the second reads the results recorded so far. -/
def demoSteps : List (Step Nat) :=
  [⟨"a", fun _ => 10, none⟩, ⟨"b", fun res => res.length, none⟩]

/-- C4 witness: in a concrete two-step run the second step's slot holds its
action's value (the number of results recorded before it, i.e. 1). -/
theorem c4_witness :
    (run_steps demoSteps ⟨[], []⟩).results[1]? = some (some 1) := by
  have h := (c4_run_steps_order_once_results demoSteps ⟨[], []⟩).2.2 1 (by decide) (by rfl)
  simpa using h

namespace TokenStore

/-- Inversion of a successful `create_token`, with the shape of the stored
record: the persisted list is the old list plus one fresh *active* record. -/
theorem create_token_ok_shape (mode : AuthMode) (sha : String → String)
    (gid gval now name : String) (value : Option String) (fs : SecretsDir)
    (d : TokenRecord) (fs' : SecretsDir)
    (hok : create_token mode sha gid gval now name value fs = .ok (d, fs')) :
    ∃ stored, stored.revoked = false ∧
      fs' = _sync mode (_load fs ++ [stored]) (_save (_load fs ++ [stored]) fs) := by
  unfold create_token at hok
  by_cases hb : isBlank (rawValueOf gval value) = true
  · simp [hb] at hok
  · simp only [hb, Bool.false_eq_true, if_false] at hok
    injection hok with h1
    injection h1 with hd hfs
    refine ⟨_, ?_, hfs.symm⟩
    cases mode <;> rfl

/-- A successful creation extends the active set by its fresh record and
grows the persisted record list by one. -/
theorem create_token_grows (mode : AuthMode) (sha : String → String)
    (gid gval now name : String) (value : Option String) (fs : SecretsDir)
    (d : TokenRecord) (fs' : SecretsDir)
    (hok : create_token mode sha gid gval now name value fs = .ok (d, fs')) :
    active_tokens fs' ≠ [] ∧ (_load fs).length < (_load fs').length := by
  obtain ⟨stored, hrev, rfl⟩ :=
    create_token_ok_shape mode sha gid gval now name value fs d fs' hok
  rw [active_tokens, load_sync_save]
  constructor
  · rw [List.filter_append]
    intro hcontra
    have : stored ∈ ([] : List TokenRecord) := by
      rw [← hcontra]
      refine List.mem_append_right _ ?_
      simp [hrev]
    cases this
  · simp

end TokenStore

/-- When the store already has an active token, bootstrap resolution
succeeds, keeps the active set non-empty, and any record it adds is a
temporary credential (its id is reported via `temporary_id`). -/
theorem ensure_nonempty_cases (sha : String → String) (gid gval now : String)
    (cfg : Cfg) (fs : SecretsDir) (hne : TokenStore.active_tokens fs ≠ []) :
    ∃ rt fs', ensure_first_token sha gid gval now cfg fs = .ok (rt, fs') ∧
      TokenStore.active_tokens fs' ≠ [] ∧
      ((TokenStore._load fs).length < (TokenStore._load fs').length →
        (rt.temporary_id).isSome = true) := by
  cases hact : TokenStore.active_tokens fs with
  | nil => exact absurd hact hne
  | cons t ts =>
    by_cases htv : truthyS t.value = true
    · refine ⟨⟨t.value, none⟩, fs, ?_, ?_, ?_⟩
      · rw [ensure_first_token, hact]
        simp [htv]
      · rw [hact]
        exact List.cons_ne_nil t ts
      · intro hlt
        exact absurd hlt (Nat.lt_irrefl _)
    · have htv' : truthyS t.value = false := by simpa using htv
      cases hcr : TokenStore.create_token cfg.auth_mode sha gid gval now
          "__deploy-smoke-test" none fs with
      | error e =>
        rw [TokenStore.create_token_not_blank cfg.auth_mode sha gid gval now
          "__deploy-smoke-test" none fs (TokenStore.isBlank_sk_append gval)] at hcr
        exact Except.noConfusion hcr
      | ok p =>
        refine ⟨⟨p.1.value, some p.1.id⟩, p.2, ?_, ?_, fun _ => rfl⟩
        · rw [ensure_first_token, hact]
          simp only [htv', Bool.false_eq_true, if_false, hcr]
        · exact (TokenStore.create_token_grows cfg.auth_mode sha gid gval now
            "__deploy-smoke-test" none fs p.1 p.2 (by rw [hcr])).1

/-- Whether an invocation that turned `fs` into `fs'` with runtime `rt`
created a *permanent* token: the record list grew and no temporary id was
reported. -/
def permFlag (fs : SecretsDir) (rt : TokenRuntime) (fs' : SecretsDir) : Nat :=
  if (TokenStore._load fs).length < (TokenStore._load fs').length ∧
      rt.temporary_id = none then 1 else 0

/-- Repeated invocations of `_ensure_first_token` over the same store (each
one threading the store state it produced; a raised exception leaves the
store unchanged), together with the number of permanent creations. -/
def iterate_ensure (sha : String → String) (cfg : Cfg) :
    List (String × String × String) → SecretsDir → SecretsDir × Nat
  | [], fs => (fs, 0)
  | e :: rest, fs =>
    match ensure_first_token sha e.1 e.2.1 e.2.2 cfg fs with
    | .ok (rt, fs') =>
      ((iterate_ensure sha cfg rest fs').1,
       permFlag fs rt fs' + (iterate_ensure sha cfg rest fs').2)
    | .error _ => iterate_ensure sha cfg rest fs

/-- Once the active set is non-empty, no later invocation ever creates a
permanent token. -/
theorem iterate_ensure_zero (sha : String → String) (cfg : Cfg)
    (supply : List (String × String × String)) (fs : SecretsDir)
    (hne : TokenStore.active_tokens fs ≠ []) :
    (iterate_ensure sha cfg supply fs).2 = 0 := by
  induction supply generalizing fs with
  | nil => rfl
  | cons e rest ih =>
    obtain ⟨rt, fs', hok, hne', htemp⟩ := ensure_nonempty_cases sha e.1 e.2.1 e.2.2 cfg fs hne
    have hflag : permFlag fs rt fs' = 0 := by
      rw [permFlag]
      by_cases hlt : (TokenStore._load fs).length < (TokenStore._load fs').length
      · have := htemp hlt
        rw [if_neg]
        rintro ⟨-, hnone⟩
        rw [hnone] at this
        cases this
      · rw [if_neg]
        rintro ⟨hlt', -⟩
        exact hlt hlt'
    simp only [iterate_ensure, hok, hflag, ih fs' hne', Nat.add_zero]

/-- C6: bootstrap token resolution is idempotent with respect to permanent
tokens: over any sequence of repeated invocations (each threading the store
state forward), at most one invocation creates a permanent (non-temporary)
token; an invocation finding an active token never creates a permanent one —
any record it adds is reported as temporary via `temporary_id` — and hence a
permanent creation can only happen when the active set was empty. -/
theorem c6_ensure_first_token_idempotent :
    (∀ (sha : String → String) (cfg : Cfg) supply (fs : SecretsDir),
      (iterate_ensure sha cfg supply fs).2 ≤ 1) ∧
    (∀ (sha : String → String) gid gval now (cfg : Cfg) fs rt fs',
      ensure_first_token sha gid gval now cfg fs = .ok (rt, fs') →
      TokenStore.active_tokens fs ≠ [] →
      (TokenStore._load fs).length < (TokenStore._load fs').length →
      (rt.temporary_id).isSome = true) ∧
    (∀ (sha : String → String) gid gval now (cfg : Cfg) fs rt fs',
      ensure_first_token sha gid gval now cfg fs = .ok (rt, fs') →
      rt.temporary_id = none →
      (TokenStore._load fs).length < (TokenStore._load fs').length →
      TokenStore.active_tokens fs = []) := by
  have key : ∀ (sha : String → String) gid gval now (cfg : Cfg) fs rt fs',
      ensure_first_token sha gid gval now cfg fs = .ok (rt, fs') →
      TokenStore.active_tokens fs ≠ [] →
      (TokenStore._load fs).length < (TokenStore._load fs').length →
      (rt.temporary_id).isSome = true := by
    intro sha gid gval now cfg fs rt fs' hok hne hlt
    obtain ⟨rt₂, fs₂, hok₂, _, htemp⟩ := ensure_nonempty_cases sha gid gval now cfg fs hne
    rw [hok] at hok₂
    injection hok₂ with h1
    injection h1 with hrt hfs
    subst hrt
    subst hfs
    exact htemp hlt
  refine ⟨?_, key, ?_⟩
  · intro sha cfg supply fs
    induction supply generalizing fs with
    | nil => exact Nat.zero_le 1
    | cons e rest ih =>
      by_cases hne : TokenStore.active_tokens fs = []
      · cases hok : ensure_first_token sha e.1 e.2.1 e.2.2 cfg fs with
        | error err =>
          simp only [iterate_ensure, hok]
          exact ih fs
        | ok p =>
          have hne' : TokenStore.active_tokens p.2 ≠ [] := by
            rw [ensure_first_token, hne] at hok
            cases hcr : TokenStore.create_token cfg.auth_mode sha e.1 e.2.1 e.2.2
                cfg.api_token_name cfg.api_token fs with
            | error err => rw [hcr] at hok; cases hok
            | ok q =>
              rw [hcr] at hok
              injection hok with h1
              rw [← h1]
              exact (TokenStore.create_token_grows cfg.auth_mode sha e.1 e.2.1 e.2.2
                cfg.api_token_name cfg.api_token fs q.1 q.2 (by rw [hcr])).1
          have h0 := iterate_ensure_zero sha cfg rest p.2 hne'
          simp only [iterate_ensure, hok, h0, Nat.add_zero]
          rw [permFlag]
          split
          · exact Nat.le_refl 1
          · exact Nat.zero_le 1
      · rw [iterate_ensure_zero sha cfg (e :: rest) fs hne]
        exact Nat.zero_le 1
  · intro sha gid gval now cfg fs rt fs' hok hnone hlt
    by_cases hne : TokenStore.active_tokens fs = []
    · exact hne
    · have := key sha gid gval now cfg fs rt fs' hok hne hlt
      rw [hnone] at this
      cases this

/-- The existing hashed-mode record of the C6 witness store (no plaintext). -/
def hashedRec : TokenRecord := ⟨"tk_e", "existing", "t0", false, none, none, some "H"⟩

/-- A hashed-mode store holding one active record without plaintext. -/
def hashedFs : SecretsDir := ⟨true, some [hashedRec], none, some ["H"]⟩

/-- The configuration of the C6 witness (hashed mode, no explicit token). -/
def cfgH : Cfg := ⟨AuthMode.hashed, "ignored", none⟩

/-- C6 witness: two repeated invocations over the concrete hashed store
create no permanent token, and the single invocation that does add a record
reports it as temporary. -/
theorem c6_witness :
    (iterate_ensure shaT cfgH
      [("bbbbbbbbbbbb", "G2", "t1"), ("cccccccccccc", "G3", "t2")] hashedFs).2 ≤ 1 ∧
    (TokenRuntime.mk (some "sk-G2") (some "tk_bbbbbbbbbbbb")).temporary_id.isSome = true :=
  ⟨c6_ensure_first_token_idempotent.1 shaT cfgH
      [("bbbbbbbbbbbb", "G2", "t1"), ("cccccccccccc", "G3", "t2")] hashedFs,
   c6_ensure_first_token_idempotent.2.1 shaT "bbbbbbbbbbbb" "G2" "t1" cfgH hashedFs
      (TokenRuntime.mk (some "sk-G2") (some "tk_bbbbbbbbbbbb"))
      ⟨true, some [hashedRec,
        ⟨"tk_bbbbbbbbbbbb", "__deploy-smoke-test", "t1", false, none, none, some "sk-G2#"⟩],
        none, some ["H", "sk-G2#"]⟩
      (by rfl) (by decide) (by decide)⟩

/-- A port accepted by the scan: not in the avoid set and reported free. -/
def portOk (is_bind_port_free : String → Nat → Bool) (host : String)
    (avoid : List Nat) (p : Nat) : Bool :=
  !(avoid.contains p) && is_bind_port_free host p

/-- Soundness and minimality of the bounded scan. -/
theorem scanPorts_some (is_bind_port_free : String → Nat → Bool) (host : String)
    (avoid : List Nat) (fuel p r : Nat)
    (h : scanPorts is_bind_port_free host avoid fuel p = some r) :
    p ≤ r ∧ portOk is_bind_port_free host avoid r = true ∧
      ∀ q, p ≤ q → q < r → portOk is_bind_port_free host avoid q = false := by
  induction fuel generalizing p with
  | zero => cases h
  | succ fuel ih =>
    rw [scanPorts] at h
    by_cases hp : portOk is_bind_port_free host avoid p = true
    · rw [portOk] at hp
      rw [if_pos hp] at h
      injection h with hr
      subst hr
      exact ⟨Nat.le_refl p, hp, fun q hq1 hq2 => absurd hq2 (Nat.not_lt.mpr hq1)⟩
    · have hp' : portOk is_bind_port_free host avoid p = false := by simpa using hp
      rw [if_neg (by rw [← portOk]; simp [hp'])] at h
      obtain ⟨h1, h2, h3⟩ := ih (p + 1) h
      refine ⟨Nat.le_trans (Nat.le_succ p) h1, h2, fun q hq1 hq2 => ?_⟩
      rcases Nat.eq_or_lt_of_le hq1 with rfl | hlt
      · exact hp'
      · exact h3 q hlt hq2

/-- Completeness of the bounded scan: if some in-range port is acceptable,
the scan returns a port. -/
theorem scanPorts_complete (is_bind_port_free : String → Nat → Bool) (host : String)
    (avoid : List Nat) (fuel p q : Nat) (hq1 : p ≤ q) (hq2 : q < p + fuel)
    (hok : portOk is_bind_port_free host avoid q = true) :
    (scanPorts is_bind_port_free host avoid fuel p).isSome = true := by
  induction fuel generalizing p with
  | zero => omega
  | succ fuel ih =>
    rw [scanPorts]
    by_cases hp : portOk is_bind_port_free host avoid p = true
    · rw [portOk] at hp
      rw [if_pos hp]
      rfl
    · have hp' : portOk is_bind_port_free host avoid p = false := by simpa using hp
      rw [if_neg (by rw [← portOk]; simp [hp'])]
      have hne : q ≠ p := fun he => by rw [he] at hok; rw [hok] at hp'; cases hp'
      exact ih (p + 1) (by omega) (by omega)

/-- C9: `pick_free_bind_port` returns the smallest port `p ≥ preferred_port`
that is not in the avoid set and that the bind-probe reports available on
the host; it returns a port whenever such a port exists below the top of
the port range.  Being a pure function of the probe, it is deterministic
for a deterministic probe. -/
theorem c9_pick_free_bind_port_minimal (is_bind_port_free : String → Nat → Bool)
    (host : String) (preferred_port : Nat) (avoid : List Nat) :
    (∀ r, pick_free_bind_port is_bind_port_free host preferred_port avoid = some r →
      preferred_port ≤ r ∧ avoid.contains r = false ∧
      is_bind_port_free host r = true ∧
      ∀ q, preferred_port ≤ q → q < r →
        avoid.contains q = true ∨ is_bind_port_free host q = false) ∧
    (∀ q, preferred_port ≤ q → q < 65536 → avoid.contains q = false →
      is_bind_port_free host q = true →
      (pick_free_bind_port is_bind_port_free host preferred_port avoid).isSome = true) := by
  constructor
  · intro r hr
    obtain ⟨h1, h2, h3⟩ := scanPorts_some is_bind_port_free host avoid _ _ r hr
    rw [portOk, Bool.and_eq_true, Bool.not_eq_true'] at h2
    refine ⟨h1, h2.1, h2.2, fun q hq1 hq2 => ?_⟩
    have := h3 q hq1 hq2
    rw [portOk, Bool.and_eq_false_iff] at this
    rcases this with hA | hB
    · exact Or.inl (by simpa using hA)
    · exact Or.inr hB
  · intro q hq1 hq2 hq3 hq4
    refine scanPorts_complete is_bind_port_free host avoid _ _ q hq1 (by omega) ?_
    rw [portOk, hq3, hq4]
    rfl

/-- C9 witness: the spec's example — preferred 3000, 3000 unavailable,
3001 in the avoid set, 3002 available — yields 3002, which satisfies the
minimality property. -/
theorem c9_witness :
    3000 ≤ 3002 ∧ [3001].contains 3002 = false ∧
    (fun (_ : String) (p : Nat) => decide (3002 ≤ p)) "0.0.0.0" 3002 = true ∧
    ∀ q, 3000 ≤ q → q < 3002 →
      [3001].contains q = true ∨
      (fun (_ : String) (p : Nat) => decide (3002 ≤ p)) "0.0.0.0" q = false :=
  (c9_pick_free_bind_port_minimal (fun _ p => decide (3002 ≤ p)) "0.0.0.0" 3000 [3001]).1
    3002 (by decide)
